import Mathlib

/-!
Verification of the Session Bridge Engine of `telegram_bridge.py`.

The Python source is shallowly embedded below.  Strings are modelled as
`List Char` (Python `str` is a sequence of code points, and `len`,
slicing, `split`, `join`, `strip` all operate on code points).  The
regular-expression substitutions of `ClineSession.clean_output` are
embedded as deterministic left-to-right scanners; each of the patterns
involved has pairwise-disjoint character classes around its greedy
stars, so Python's leftmost-match backtracking semantics coincide with
the greedy scan implemented here.  Scanners that skip a matched block
are written with a fuel parameter (`fuel = length of the input`
always suffices, since every step consumes at least one character),
which keeps them structurally recursive and kernel-computable.
-/

/-! ## Character classes used by `clean_output` (src lines 147-186) -/

/-- Final character of the two-character escape alternative
`[@-Z\\-_]` of the pattern `\x1B(?:[@-Z\\-_]|\[[0-?]*[ to /]*[@-~])` (the middle class is 0x20-0x2F):
the ranges `@`-`Z` (0x40-0x5A) and `\`-`_` (0x5C-0x5F). -/
def isAnsiSingleFinal (c : Char) : Bool :=
  (0x40 ≤ c.toNat && c.toNat ≤ 0x5A) || (0x5C ≤ c.toNat && c.toNat ≤ 0x5F)

/-- CSI parameter bytes `[0-?]` (0x30-0x3F). -/
def isCsiParam (c : Char) : Bool := 0x30 ≤ c.toNat && c.toNat ≤ 0x3F

/-- CSI intermediate bytes the range 0x20-0x2F (space to slash). -/
def isCsiInter (c : Char) : Bool := 0x20 ≤ c.toNat && c.toNat ≤ 0x2F

/-- CSI final bytes `[@-~]` (0x40-0x7E). -/
def isCsiFinal (c : Char) : Bool := 0x40 ≤ c.toNat && c.toNat ≤ 0x7E

/-- Attempt to match the tail `[0-?]*` `[0x20-0x2F]*` `[@-~]` at the head of `l`
(the part of the CSI alternative after `\x1B[`); on success return
the rest of the input after the match.  The three classes are
pairwise disjoint, so the greedy match is deterministic. -/
def csiMatch (l : List Char) : Option (List Char) :=
  match (l.dropWhile isCsiParam).dropWhile isCsiInter with
  | [] => none
  | f :: rest => if isCsiFinal f then some rest else none

/-- One pass of `ansi_escape.sub('', text)` for
`\x1B(?:[@-Z\\-_]|\[[0-?]*[ to /]*[@-~])` (the middle class is 0x20-0x2F) (src line 154-155),
with explicit fuel (one unit per scan step). -/
def ansiSubF : Nat → List Char → List Char
  | _, [] => []
  | 0, l => l
  | fuel + 1, c :: rest =>
    if c = '\x1b' then
      match rest with
      | [] => [c]
      | d :: rest2 =>
        if isAnsiSingleFinal d then ansiSubF fuel rest2
        else if d = '[' then
          match csiMatch rest2 with
          | some rest3 => ansiSubF fuel rest3
          | none => c :: ansiSubF fuel rest
        else c :: ansiSubF fuel rest
    else c :: ansiSubF fuel rest

def ansiSub (l : List Char) : List Char := ansiSubF l.length l

/-- Characters matched by `[0-9;]` in the cursor-movement pattern. -/
def isCursorParam (c : Char) : Bool := c.isDigit || c = ';'

/-- Characters matched by `[A-Za-z]`. -/
def isAsciiLetter (c : Char) : Bool :=
  ('A' ≤ c && c ≤ 'Z') || ('a' ≤ c && c ≤ 'z')

/-- Attempt to match `[0-9;]*[A-Za-z]` at the head of `l`. -/
def cursorMatch (l : List Char) : Option (List Char) :=
  match l.dropWhile isCursorParam with
  | [] => none
  | f :: rest => if isAsciiLetter f then some rest else none

/-- One pass of `cursor_codes.sub('', text)` for `\x1b\[[0-9;]*[A-Za-z]`
(src lines 158-159). -/
def cursorSubF : Nat → List Char → List Char
  | _, [] => []
  | 0, l => l
  | fuel + 1, c :: rest =>
    if c = '\x1b' then
      match rest with
      | '[' :: rest2 =>
        match cursorMatch rest2 with
        | some rest3 => cursorSubF fuel rest3
        | none => c :: cursorSubF fuel rest
      | _ => c :: cursorSubF fuel rest
    else c :: cursorSubF fuel rest

def cursorSub (l : List Char) : List Char := cursorSubF l.length l

/-- `re.sub(r'\x1b\[2J', '', text)` (src line 162). -/
def sub2JF : Nat → List Char → List Char
  | _, [] => []
  | 0, l => l
  | fuel + 1, c :: rest =>
    if c = '\x1b' then
      match rest with
      | '[' :: '2' :: 'J' :: rest2 => sub2JF fuel rest2
      | _ => c :: sub2JF fuel rest
    else c :: sub2JF fuel rest

def sub2J (l : List Char) : List Char := sub2JF l.length l

/-- `re.sub(r'\x1b\[H', '', text)` (src line 163). -/
def subHF : Nat → List Char → List Char
  | _, [] => []
  | 0, l => l
  | fuel + 1, c :: rest =>
    if c = '\x1b' then
      match rest with
      | '[' :: 'H' :: rest2 => subHF fuel rest2
      | _ => c :: subHF fuel rest
    else c :: subHF fuel rest

def subH (l : List Char) : List Char := subHF l.length l

/-- Character class `[\x00-\x09\x0b\x0c\x0e-\x1f]` of src line 166.
Note that `\x0a` (newline), `\x0d` (carriage return) and `\x7f` (DEL)
are NOT in the class. -/
def isRemovableCtrl (c : Char) : Bool :=
  c.toNat ≤ 0x09 || c.toNat = 0x0B || c.toNat = 0x0C ||
    (0x0E ≤ c.toNat && c.toNat ≤ 0x1F)

/-- `re.sub(r'[\x00-\x09\x0b\x0c\x0e-\x1f]', '', text)` (src line 166). -/
def ctrlSub (l : List Char) : List Char := l.filter (fun c => !isRemovableCtrl c)

/-- Scanner for `re.sub(r'\n{3,}', '\n\n', text)` (src line 169): `n`
counts the newlines of the current run; a maximal run of `k` newlines
is emitted as `min k 2` newlines. -/
def collapseGo : Nat → List Char → List Char
  | n, [] => List.replicate (min n 2) '\n'
  | n, c :: rest =>
    if c = '\n' then collapseGo (n + 1) rest
    else List.replicate (min n 2) '\n' ++ c :: collapseGo 0 rest

def collapseNL (l : List Char) : List Char := collapseGo 0 l

/-- `text.split('\n')` (src line 172): always returns at least one
(possibly empty) line. -/
def splitNL : List Char → List (List Char)
  | [] => [[]]
  | c :: rest =>
    match splitNL rest with
    | [] => [[c]]
    | m :: ms => if c = '\n' then [] :: m :: ms else (c :: m) :: ms

/-- `'\n'.join(lines)` (src line 180). -/
def joinNL : List (List Char) → List Char
  | [] => []
  | [m] => m
  | m :: m' :: ms => m ++ '\n' :: joinNL (m' :: ms)

/-- Python `str.isspace` / the character set stripped by `str.strip()`
(and matched by the regex class `\s` on `str` patterns). -/
def pyIsSpace (c : Char) : Bool :=
  (0x09 ≤ c.toNat && c.toNat ≤ 0x0D) || (0x1C ≤ c.toNat && c.toNat ≤ 0x20) ||
  c.toNat = 0x85 || c.toNat = 0xA0 || c.toNat = 0x1680 ||
  (0x2000 ≤ c.toNat && c.toNat ≤ 0x200A) ||
  c.toNat = 0x2028 || c.toNat = 0x2029 || c.toNat = 0x202F ||
  c.toNat = 0x205F || c.toNat = 0x3000

/-- `str.lstrip()`-part of `strip`: drop leading whitespace. -/
def stripLead (l : List Char) : List Char := l.dropWhile pyIsSpace

/-- `str.rstrip()`-part of `strip`: drop trailing whitespace. -/
def stripTrail (l : List Char) : List Char := List.rdropWhile pyIsSpace l

/-- Python `str.strip()` with no argument. -/
def pyStrip (l : List Char) : List Char := stripTrail (stripLead l)

/-- The exact decorative-character string literal of src line 177
(the source file stores the box-drawing glyphs double-encoded; the
Python string consists of these code points). -/
def decorChars : List Char :=
  "\u201A\u00EE\u00C4\u201A\u00EE\u00C7\u201A\u00EE\u00E5\u201A\u00EE\u00EA\u201A\u00EE\u00EE\u201A\u00EE\u00F2\u201A\u00EE\u00FA\u201A\u00EE\u00A7\u201A\u00EE\u00A8\u201A\u00EE\u00A5\u201A\u00EE\u00BA\u201A\u00EF\u00EA\u201A\u00EF\u00EB\u201A\u00EF\u00EE\u201A\u00EF\u00F3\u201A\u00EF\u00F6\u201A\u00EF\u00F9\u201A\u00EF\u2020\u201A\u00EF\u00A3\u201A\u00EF\u00B6\u201A\u00EF\u00A9\u201A\u00EF\u00A8\u201A\u00EE\u00C4\u201A\u00EE\u00C5\u201A\u00EE\u00C7\u201A\u00EE\u00C9\u201A\u00EE\u00D1\u201A\u00EE\u00D6\u201A\u00EE\u00DC\u201A\u00EE\u00E1\u201A\u00EE\u00E0\u201A\u00EE\u00E2\u201A\u00EE\u00E4\u201A\u00EE\u00E3".data

/-- `c in '...decorative chars...'` of src line 177. -/
def isDecor (c : Char) : Bool := decorChars.contains c

/-- The per-line keep test of src lines 176-178:
`if stripped and not all(c in DECOR for c in stripped)`. -/
def keepLine (m : List Char) : Bool :=
  !(pyStrip m).isEmpty && !(pyStrip m).all isDecor

/-- Src lines 172-180: split into lines, drop lines whose stripped
content is empty or consists only of decorative characters, rejoin. -/
def dropDecorLines (l : List Char) : List Char :=
  joinNL ((splitNL l).filter keepLine)

/-- The truncation marker `"..."` appended at src line 184. -/
def dots : List Char := ['.', '.', '.']

/-- Src lines 183-184: `if len(text) > 4000: text = text[:3997] + "..."`. -/
def truncatePy (l : List Char) : List Char :=
  if 4000 < l.length then l.take 3997 ++ dots else l

/-- `ClineSession.clean_output` (src lines 147-186). -/
def clean_output (l : List Char) : List Char :=
  if l.isEmpty then []
  else
    pyStrip (truncatePy (dropDecorLines (collapseNL (ctrlSub
      (subH (sub2J (cursorSub (ansiSub l))))))))

/-! ## Session state (`ClineSession`, src lines 60-145) -/

/-- Mutable per-session state of `ClineSession.__init__` (src lines
63-74).  The `asyncio.Lock` and the reader-task handle are runtime
objects and are not part of the data model; the process handle is
modelled as an optional abstract identifier. -/
structure Session where
  working_dir : String
  model : String
  task_id : Option String
  process : Option Nat
  output_buffer : List Char
  session_active : Bool
  total_tokens : Nat
  messages_sent : Nat
deriving DecidableEq

/-- `ClineSession.__init__` (src lines 63-74) with the configured
working directory and model. -/
def init_session (wd model : String) : Session :=
  { working_dir := wd, model := model, task_id := none, process := none,
    output_buffer := [], session_active := false,
    total_tokens := 0, messages_sent := 0 }

/-- `ClineSession.restart` (src lines 140-145): clears `task_id` and
the counters and returns the confirmation string.  It does not touch
`self.process`. -/
def restart (s : Session) : Session × String :=
  ({ s with task_id := none, total_tokens := 0, messages_sent := 0 },
   "Cline session reset. Next message will start fresh.")

/-- State update of `resume_command` (src lines 494-499, and the
terminal variant at src lines 841-849): `bridge.cline.task_id =
context.args[0]` — the argument is stored verbatim. -/
def resume_command (s : Session) (arg : String) : Session :=
  { s with task_id := some arg }

/-- State update of `handle_message` after `send_to_cline` returns
(src lines 743-747): `if task_id: bridge.cline.task_id = task_id`.
Python truthiness: an empty string is falsy. -/
def handle_message_update (s : Session) (reported : Option String) : Session :=
  match reported with
  | some t => if t = "" then s else { s with task_id := some t }
  | none => s

/-! ## Task-identifier extraction (src lines 323-328) -/

/-- The literal part of the pattern `Task started:\s*(\d+)`. -/
def markerLit : List Char := "Task started:".data

/-- Attempt to match `Task started:\s*(\d+)` at the head of `l`,
returning the digits captured by group 1.  `\s*` is greedy and the
whitespace and digit classes are disjoint, so the greedy scan is
the regex match. -/
def matchMarker (l : List Char) : Option (List Char) :=
  if markerLit.isPrefixOf l then
    if (((l.drop markerLit.length).dropWhile pyIsSpace).takeWhile
        Char.isDigit).isEmpty then none
    else some (((l.drop markerLit.length).dropWhile pyIsSpace).takeWhile
      Char.isDigit)
  else none

/-- `re.search(r'Task started:\s*(\d+)', output)` followed by
`.group(1)` (src lines 325-327): the leftmost match wins; the guard
`if not task_id` in the read loop means later matches in the same
invocation are ignored. -/
def extractTaskId : List Char → Option (List Char)
  | [] => none
  | c :: rest =>
    match matchMarker (c :: rest) with
    | some d => some d
    | none => extractTaskId rest

/-! ## Command-line construction of `send_to_cline` (src lines 247-267) -/

/-- The final (message) argument: src lines 264-267 — the context
preamble, when nonempty, is concatenated in front of the message and
the whole text is appended as one list element. -/
def send_message_arg (context_preamble message : String) : String :=
  if context_preamble ≠ "" then
    "Context:" ++ context_preamble ++ "\n\nUser message: " ++ message
  else message

/-- The argument list `cmd` built by `send_to_cline` (src lines
247-267): executable path, optional `--yolo`, then either
`--taskId <id>` (resume, model omitted) or `--model <model>`, then
`--timeout`, `--cwd`, and the message as a single element. -/
def send_to_cline_cmd (cline_path : String) (yolo : Bool) (timeout_cfg : Nat)
    (s : Session) (context_preamble message : String) : List String :=
  [cline_path]
    ++ (if yolo then ["--yolo"] else [])
    ++ (match s.task_id with
        | some t => ["--taskId", t]
        | none => ["--model", s.model])
    ++ ["--timeout", toString timeout_cfg]
    ++ ["--cwd", s.working_dir]
    ++ [send_message_arg context_preamble message]

/-! ## Working-directory change (`cd_command`, src lines 560-594) -/

/-- `'/'`-splitting of a path (Python `path.split('/')`). -/
def splitSlash : List Char → List (List Char)
  | [] => [[]]
  | c :: rest =>
    match splitSlash rest with
    | [] => [[c]]
    | m :: ms => if c = '/' then [] :: m :: ms else (c :: m) :: ms

/-- `'/'.join(comps)`. -/
def joinSlash : List String → String
  | [] => ""
  | [a] => a
  | a :: b :: r => a ++ "/" ++ joinSlash (b :: r)

/-- `' '.join(context.args)` (src line 576). -/
def joinSpace : List String → String
  | [] => ""
  | [a] => a
  | a :: b :: r => a ++ " " ++ joinSpace (b :: r)

/-- `os.path.isabs` on POSIX: `s.startswith('/')`. -/
def posixIsAbs (p : String) : Bool := p.data.head? = some '/'

/-- `os.path.join(a, b)` on POSIX (two arguments). -/
def posixJoin (a b : String) : String :=
  if posixIsAbs b then b
  else if a = "" || a.data.getLast? = some '/' then a ++ b
  else a ++ "/" ++ b

/-- One step of the component loop of `posixpath.normpath`: the stack
holds the accumulated components in reverse order. -/
def normStep (slashes : Bool) (stack : List String) (comp : String) : List String :=
  if comp = "" || comp = "." then stack
  else if comp ≠ ".." then comp :: stack
  else
    match stack with
    | [] => if slashes then [] else [".."]
    | top :: rest => if top = ".." then comp :: stack else rest

/-- `posixpath.normpath`. -/
def posixNormpath (p : String) : String :=
  if p = "" then "." else
  let s1 : Bool := posixIsAbs p
  let s2 : Bool := (p.data.take 2 = ['/', '/']) && !(p.data.take 3 = ['/', '/', '/'])
  let comps := (splitSlash p.data).map String.mk
  let stack := comps.foldl (normStep s1) []
  let res := (if s2 then "//" else if s1 then "/" else "") ++ joinSlash stack.reverse
  if res = "" then "." else res

/-- `os.path.abspath` on POSIX: join with the process working
directory when relative, then normalize. -/
def posixAbspath (cwd p : String) : String :=
  if posixIsAbs p then posixNormpath p else posixNormpath (posixJoin cwd p)

/-- The reply of `cd_command`, abstracting the transport text. -/
inductive CdReply where
  | usage (currentDir : String)
  | notFound (dir : String)
  | changed (dir : String) (resetMsg : String)
deriving DecidableEq

/-- The directory `cd_command` resolves its argument to (src lines
576-580): an absolute argument is used verbatim; a relative one is
joined to the session working directory and passed through
`os.path.abspath`. -/
def cdTarget (cwd : String) (s : Session) (args : List String) : String :=
  let d0 := joinSpace args
  if posixIsAbs d0 then d0 else posixAbspath cwd (posixJoin s.working_dir d0)

/-- `cd_command` (src lines 560-594): `cwd` is the process current
directory consulted by `os.path.abspath`, `isDir` the `os.path.isdir`
oracle.  On a missing directory the session is returned unchanged;
on success the working directory is rebound and `restart` is applied. -/
def cd_command (cwd : String) (isDir : String → Bool) (s : Session)
    (args : List String) : Session × CdReply :=
  match args with
  | [] => (s, CdReply.usage s.working_dir)
  | _ :: _ =>
    let nd := cdTarget cwd s args
    if isDir nd then
      let s' := { s with working_dir := nd }
      let r := restart s'
      (r.1, CdReply.changed nd r.2)
    else (s, CdReply.notFound nd)


/-- A concrete session holding a live process handle (as would result
from `start_interactive`, src lines 97-124, setting `self.process`). -/
def session_with_process : Session :=
  { working_dir := "/w", model := "m", task_id := some "5", process := some 7,
    output_buffer := [], session_active := true, total_tokens := 9,
    messages_sent := 3 }

/-! ## Sanity checks of the embedding on concrete inputs -/

example : clean_output "a\x1b[31mb".data = "ab".data := by decide
example : clean_output "a\n\nb".data = "a\nb".data := by decide
example : clean_output "a\rb".data = "a\rb".data := by decide
example : clean_output "  x  ".data = "x".data := by decide
example : extractTaskId "xx Task started:  427 done".data = some ['4', '2', '7'] := by decide
example : extractTaskId "Task started: a".data = none := by decide
example : posixNormpath "/a/./b//../c" = "/a/c" := by decide
example : posixAbspath "/base" "x/../y" = "/base/y" := by decide

/-! ## Helper lemmas: membership of characters through the pipeline -/

theorem mem_ctrlSub {c : Char} {l : List Char} (h : c ∈ ctrlSub l) :
    isRemovableCtrl c = false := by
  have h2 := List.of_mem_filter h
  simpa using h2

theorem mem_collapseGo {c : Char} : ∀ {l : List Char} {n : Nat},
    c ∈ collapseGo n l → c ∈ l ∨ c = '\n'
  | [], n, h => by
    right
    simp only [collapseGo] at h
    exact List.eq_of_mem_replicate h
  | a :: rest, n, h => by
    simp only [collapseGo] at h
    by_cases ha : a = '\n'
    · rw [if_pos ha] at h
      rcases mem_collapseGo h with h1 | h2
      · exact Or.inl (List.mem_cons_of_mem _ h1)
      · exact Or.inr h2
    · rw [if_neg ha] at h
      rcases List.mem_append.mp h with h1 | h2
      · exact Or.inr (List.eq_of_mem_replicate h1)
      · rcases List.mem_cons.mp h2 with h3 | h4
        · exact Or.inl (h3 ▸ List.mem_cons_self a rest)
        · rcases mem_collapseGo h4 with h5 | h6
          · exact Or.inl (List.mem_cons_of_mem _ h5)
          · exact Or.inr h6

theorem splitNL_ne_nil : ∀ l : List Char, splitNL l ≠ []
  | [] => by simp [splitNL]
  | c :: rest => by
    rcases h : splitNL rest with _ | ⟨m, ms⟩
    · exact absurd h (splitNL_ne_nil rest)
    · by_cases hc : c = '\n' <;> simp [splitNL, h, hc]

theorem mem_splitNL {c : Char} : ∀ {l m : List Char}, m ∈ splitNL l → c ∈ m → c ∈ l
  | [], m, hm, hc => by
    simp only [splitNL, List.mem_singleton] at hm
    subst hm
    exact absurd hc (List.not_mem_nil c)
  | a :: rest, m, hm, hc => by
    rcases h : splitNL rest with _ | ⟨m', ms'⟩
    · exact absurd h (splitNL_ne_nil rest)
    · simp only [splitNL, h] at hm
      by_cases ha : a = '\n'
      · rw [if_pos ha] at hm
        rcases List.mem_cons.mp hm with h1 | h2
        · subst h1; exact absurd hc (List.not_mem_nil c)
        · have hmem : m ∈ splitNL rest := h ▸ h2
          exact List.mem_cons_of_mem _ (mem_splitNL hmem hc)
      · rw [if_neg ha] at hm
        rcases List.mem_cons.mp hm with h1 | h2
        · subst h1
          rcases List.mem_cons.mp hc with h3 | h4
          · exact h3 ▸ List.mem_cons_self a rest
          · have hmem : m' ∈ splitNL rest := by rw [h]; exact List.mem_cons_self _ _
            exact List.mem_cons_of_mem _ (mem_splitNL hmem h4)
        · have hmem : m ∈ splitNL rest := by rw [h]; exact List.mem_cons_of_mem _ h2
          exact List.mem_cons_of_mem _ (mem_splitNL hmem hc)

theorem splitNL_no_nl : ∀ {l m : List Char}, m ∈ splitNL l → '\n' ∉ m
  | [], m, hm => by
    simp only [splitNL, List.mem_singleton] at hm
    subst hm
    exact List.not_mem_nil _
  | a :: rest, m, hm => by
    rcases h : splitNL rest with _ | ⟨m', ms'⟩
    · exact absurd h (splitNL_ne_nil rest)
    · simp only [splitNL, h] at hm
      by_cases ha : a = '\n'
      · rw [if_pos ha] at hm
        rcases List.mem_cons.mp hm with h1 | h2
        · subst h1; exact List.not_mem_nil _
        · exact splitNL_no_nl (h ▸ h2)
      · rw [if_neg ha] at hm
        rcases List.mem_cons.mp hm with h1 | h2
        · subst h1
          intro hc
          rcases List.mem_cons.mp hc with h3 | h4
          · exact ha h3.symm
          · have hmem : m' ∈ splitNL rest := by rw [h]; exact List.mem_cons_self _ _
            exact splitNL_no_nl hmem h4
        · have hmem : m ∈ splitNL rest := by rw [h]; exact List.mem_cons_of_mem _ h2
          exact splitNL_no_nl hmem

theorem mem_joinNL {c : Char} : ∀ {L : List (List Char)},
    c ∈ joinNL L → (∃ m ∈ L, c ∈ m) ∨ c = '\n'
  | [], h => absurd h (List.not_mem_nil c)
  | [m], h => Or.inl ⟨m, List.mem_singleton_self m, h⟩
  | m :: m' :: ms, h => by
    simp only [joinNL] at h
    rcases List.mem_append.mp h with h1 | h2
    · exact Or.inl ⟨m, List.mem_cons_self _ _, h1⟩
    · rcases List.mem_cons.mp h2 with h3 | h4
      · exact Or.inr h3
      · rcases mem_joinNL h4 with ⟨mm, hmm, hc⟩ | hnl
        · exact Or.inl ⟨mm, List.mem_cons_of_mem _ hmm, hc⟩
        · exact Or.inr hnl

theorem mem_dropDecorLines {c : Char} {l : List Char} (h : c ∈ dropDecorLines l) :
    c ∈ l ∨ c = '\n' := by
  rcases mem_joinNL h with ⟨m, hm, hc⟩ | hnl
  · exact Or.inl (mem_splitNL (List.mem_of_mem_filter hm) hc)
  · exact Or.inr hnl

theorem mem_truncatePy {c : Char} {l : List Char} (h : c ∈ truncatePy l) :
    c ∈ l ∨ c = '.' := by
  unfold truncatePy at h
  split at h
  · rcases List.mem_append.mp h with h1 | h2
    · exact Or.inl (List.take_subset _ _ h1)
    · right
      simpa [dots] using h2
  · exact Or.inl h

theorem mem_stripLead {c : Char} {l : List Char} (h : c ∈ stripLead l) : c ∈ l :=
  List.dropWhile_subset _ h

theorem mem_stripTrail {c : Char} {l : List Char} (h : c ∈ stripTrail l) : c ∈ l := by
  unfold stripTrail List.rdropWhile at h
  rw [List.mem_reverse] at h
  exact List.mem_reverse.mp (List.dropWhile_subset _ h)

theorem mem_pyStrip {c : Char} {l : List Char} (h : c ∈ pyStrip l) : c ∈ l :=
  mem_stripLead (mem_stripTrail h)

theorem clean_output_no_ctrl {c : Char} {l : List Char} (h : c ∈ clean_output l) :
    isRemovableCtrl c = false := by
  unfold clean_output at h
  split at h
  · exact absurd h (List.not_mem_nil c)
  · have h1 := mem_pyStrip h
    rcases mem_truncatePy h1 with h2 | h2
    · rcases mem_dropDecorLines h2 with h3 | h3
      · rcases mem_collapseGo h3 with h4 | h4
        · exact mem_ctrlSub h4
        · subst h4; decide
      · subst h3; decide
    · subst h2; decide

/-! ## The substitution passes are the identity on escape-free text -/

theorem ansiSubF_eq_self : ∀ (fuel : Nat) {l : List Char},
    (∀ c ∈ l, c ≠ '\x1b') → ansiSubF fuel l = l
  | _, [], _ => by cases ‹Nat› <;> rfl
  | 0, _ :: _, _ => rfl
  | fuel + 1, c :: rest, h => by
    have hc : c ≠ '\x1b' := h c (List.mem_cons_self _ _)
    simp only [ansiSubF, if_neg hc]
    rw [ansiSubF_eq_self fuel (fun d hd => h d (List.mem_cons_of_mem _ hd))]

theorem ansiSub_eq_self {l : List Char} (h : ∀ c ∈ l, c ≠ '\x1b') :
    ansiSub l = l := ansiSubF_eq_self _ h

theorem cursorSubF_eq_self : ∀ (fuel : Nat) {l : List Char},
    (∀ c ∈ l, c ≠ '\x1b') → cursorSubF fuel l = l
  | _, [], _ => by cases ‹Nat› <;> rfl
  | 0, _ :: _, _ => rfl
  | fuel + 1, c :: rest, h => by
    have hc : c ≠ '\x1b' := h c (List.mem_cons_self _ _)
    simp only [cursorSubF, if_neg hc]
    rw [cursorSubF_eq_self fuel (fun d hd => h d (List.mem_cons_of_mem _ hd))]

theorem cursorSub_eq_self {l : List Char} (h : ∀ c ∈ l, c ≠ '\x1b') :
    cursorSub l = l := cursorSubF_eq_self _ h

theorem sub2JF_eq_self : ∀ (fuel : Nat) {l : List Char},
    (∀ c ∈ l, c ≠ '\x1b') → sub2JF fuel l = l
  | _, [], _ => by cases ‹Nat› <;> rfl
  | 0, _ :: _, _ => rfl
  | fuel + 1, c :: rest, h => by
    have hc : c ≠ '\x1b' := h c (List.mem_cons_self _ _)
    simp only [sub2JF, if_neg hc]
    rw [sub2JF_eq_self fuel (fun d hd => h d (List.mem_cons_of_mem _ hd))]

theorem sub2J_eq_self {l : List Char} (h : ∀ c ∈ l, c ≠ '\x1b') :
    sub2J l = l := sub2JF_eq_self _ h

theorem subHF_eq_self : ∀ (fuel : Nat) {l : List Char},
    (∀ c ∈ l, c ≠ '\x1b') → subHF fuel l = l
  | _, [], _ => by cases ‹Nat› <;> rfl
  | 0, _ :: _, _ => rfl
  | fuel + 1, c :: rest, h => by
    have hc : c ≠ '\x1b' := h c (List.mem_cons_self _ _)
    simp only [subHF, if_neg hc]
    rw [subHF_eq_self fuel (fun d hd => h d (List.mem_cons_of_mem _ hd))]

theorem subH_eq_self {l : List Char} (h : ∀ c ∈ l, c ≠ '\x1b') :
    subH l = l := subHF_eq_self _ h

theorem ctrlSub_eq_self {l : List Char} (h : ∀ c ∈ l, isRemovableCtrl c = false) :
    ctrlSub l = l := by
  unfold ctrlSub
  rw [List.filter_eq_self]
  intro a ha
  simp [h a ha]

/-! ## Length bounds -/

theorem length_stripLead_le (l : List Char) : (stripLead l).length ≤ l.length :=
  (List.dropWhile_sublist _).length_le

theorem length_stripTrail_le (l : List Char) : (stripTrail l).length ≤ l.length := by
  unfold stripTrail List.rdropWhile
  rw [List.length_reverse]
  calc (l.reverse.dropWhile pyIsSpace).length ≤ l.reverse.length :=
        (List.dropWhile_sublist _).length_le
    _ = l.length := List.length_reverse l

theorem length_pyStrip_le (l : List Char) : (pyStrip l).length ≤ l.length :=
  le_trans (length_stripTrail_le _) (length_stripLead_le _)

theorem length_truncatePy_le (l : List Char) : (truncatePy l).length ≤ 4000 := by
  unfold truncatePy
  split
  · rename_i hgt
    rw [List.length_append, List.length_take]
    have : min 3997 l.length = 3997 := Nat.min_eq_left (by omega)
    simp [dots, this]
  · omega

theorem clean_output_length (l : List Char) : (clean_output l).length ≤ 4000 := by
  unfold clean_output
  split
  · simp
  · exact le_trans (length_pyStrip_le _) (length_truncatePy_le _)

/-! ## Structure of `splitNL` and `joinNL` -/

theorem joinNL_cons {m : List Char} {X : List (List Char)} (h : X ≠ []) :
    joinNL (m :: X) = m ++ '\n' :: joinNL X := by
  rcases X with _ | ⟨m', ms⟩
  · exact absurd rfl h
  · rfl

theorem splitNL_eq_single {a : List Char} (h : '\n' ∉ a) : splitNL a = [a] := by
  induction a with
  | nil => rfl
  | cons c rest ih =>
    have hc : c ≠ '\n' := fun he => h (he ▸ List.mem_cons_self c rest)
    have hrest : '\n' ∉ rest := fun hm => h (List.mem_cons_of_mem _ hm)
    simp [splitNL, ih hrest, hc]

theorem splitNL_append_nl {a v : List Char} (h : '\n' ∉ a) :
    splitNL (a ++ '\n' :: v) = a :: splitNL v := by
  induction a with
  | nil =>
    rcases hv : splitNL v with _ | ⟨m, ms⟩
    · exact absurd hv (splitNL_ne_nil v)
    · simp [splitNL, hv]
  | cons c rest ih =>
    have hc : c ≠ '\n' := fun he => h (he ▸ List.mem_cons_self c rest)
    have hrest : '\n' ∉ rest := fun hm => h (List.mem_cons_of_mem _ hm)
    have ih2 := ih hrest
    rcases hv : splitNL (rest ++ '\n' :: v) with _ | ⟨m, ms⟩
    · exact absurd hv (splitNL_ne_nil _)
    · rw [hv] at ih2
      have hm : m = rest := by
        have := List.cons.injEq m ms rest (splitNL v) ▸ ih2
        exact (List.cons.inj ih2).1
      have hms : ms = splitNL v := (List.cons.inj ih2).2
      simp [splitNL, hv, hc, hm, hms]

theorem splitNL_joinNL : ∀ {L : List (List Char)}, (∀ m ∈ L, '\n' ∉ m) → L ≠ [] →
    splitNL (joinNL L) = L
  | [], _, hne => absurd rfl hne
  | [m], h, _ => by
    simp only [joinNL]
    exact splitNL_eq_single (h m (List.mem_singleton_self m))
  | m :: m' :: ms, h, _ => by
    rw [joinNL_cons (by simp)]
    rw [splitNL_append_nl (h m (List.mem_cons_self _ _))]
    rw [splitNL_joinNL (fun x hx => h x (List.mem_cons_of_mem _ hx)) (by simp)]

theorem joinNL_append_singleton_ne_nil {X : List (List Char)} {q : List Char}
    (hq : q ≠ []) : joinNL (X ++ [q]) ≠ [] := by
  rcases X with _ | ⟨x, xs⟩
  · simpa [joinNL] using hq
  · rw [List.cons_append, joinNL_cons (by simp)]
    rcases x with _ | ⟨c, cs⟩
    · simp
    · simp

theorem joinNL_ne_nil_of_keep {L : List (List Char)} (hne : L ≠ [])
    (h : ∀ m ∈ L, m ≠ []) : joinNL L ≠ [] := by
  rcases L with _ | ⟨m, ms⟩
  · exact absurd rfl hne
  · rcases ms with _ | ⟨m', ms'⟩
    · simpa [joinNL] using h m (List.mem_singleton_self m)
    · rw [joinNL_cons (by simp)]
      rcases m with _ | ⟨c, cs⟩
      · simp
      · simp

/-! ## Stripping lemmas -/

theorem stripTrail_eq_nil_iff {l : List Char} :
    stripTrail l = [] ↔ ∀ c ∈ l, pyIsSpace c = true := by
  unfold stripTrail
  rw [List.rdropWhile_eq_nil_iff]

theorem stripLead_eq_nil_iff {l : List Char} :
    stripLead l = [] ↔ ∀ c ∈ l, pyIsSpace c = true := by
  unfold stripLead
  rw [List.dropWhile_eq_nil_iff]

theorem stripTrail_append {u v : List Char} (h : stripTrail v ≠ []) :
    stripTrail (u ++ v) = u ++ stripTrail v := by
  unfold stripTrail List.rdropWhile at h ⊢
  rw [List.reverse_append, List.dropWhile_append]
  have hne : v.reverse.dropWhile pyIsSpace ≠ [] := by
    intro he
    rw [he] at h
    exact h rfl
  rw [if_neg (by simpa [List.isEmpty_iff] using hne)]
  rw [List.reverse_append, List.reverse_reverse]

theorem stripTrail_cons_of_ne_nil {c : Char} {rest : List Char}
    (h : stripTrail rest ≠ []) : stripTrail (c :: rest) = c :: stripTrail rest := by
  have := stripTrail_append (u := [c]) (v := rest) h
  simpa using this

theorem stripTrail_cons_of_neg {c : Char} {rest : List Char}
    (hc : pyIsSpace c = false) : stripTrail (c :: rest) = c :: stripTrail rest := by
  by_cases h : stripTrail rest = []
  · have hall : ∀ x ∈ rest, pyIsSpace x = true := stripTrail_eq_nil_iff.mp h
    unfold stripTrail List.rdropWhile
    have hrev : rest.reverse.dropWhile pyIsSpace = [] := by
      rw [List.dropWhile_eq_nil_iff]
      intro x hx
      exact hall x (List.mem_reverse.mp hx)
    have : (c :: rest).reverse = rest.reverse ++ [c] := by simp
    rw [this, List.dropWhile_append, if_pos (by simp [hrev])]
    simp [List.dropWhile_cons, hc, h, stripTrail, List.rdropWhile, hrev]
  · exact stripTrail_cons_of_ne_nil h

theorem stripLead_stripTrail_comm : ∀ {l : List Char},
    stripLead (stripTrail l) = stripTrail (stripLead l)
  | [] => rfl
  | c :: rest => by
    by_cases hc : pyIsSpace c
    · by_cases h : stripTrail rest = []
      · have hall : ∀ x ∈ rest, pyIsSpace x = true := stripTrail_eq_nil_iff.mp h
        have h1 : stripTrail (c :: rest) = [] := by
          rw [stripTrail_eq_nil_iff]
          intro x hx
          rcases List.mem_cons.mp hx with h2 | h2
          · exact h2 ▸ hc
          · exact hall x h2
        have h2 : stripLead (c :: rest) = stripLead rest := by
          simp [stripLead, List.dropWhile_cons, hc]
        have h3 : stripLead rest = [] := by
          rw [stripLead_eq_nil_iff]
          exact hall
        rw [h1, h2, h3]
        rfl
      · rw [stripTrail_cons_of_ne_nil h]
        have h2 : stripLead (c :: stripTrail rest) = stripLead (stripTrail rest) := by
          simp [stripLead, List.dropWhile_cons, hc]
        have h3 : stripLead (c :: rest) = stripLead rest := by
          simp [stripLead, List.dropWhile_cons, hc]
        rw [h2, h3, stripLead_stripTrail_comm]
    · have hc' : pyIsSpace c = false := by simpa using hc
      rw [stripTrail_cons_of_neg hc']
      have h2 : stripLead (c :: stripTrail rest) = c :: stripTrail rest := by
        simp [stripLead, List.dropWhile_cons, hc']
      have h3 : stripLead (c :: rest) = c :: rest := by
        simp [stripLead, List.dropWhile_cons, hc']
      rw [h2, h3, stripTrail_cons_of_neg hc']

theorem stripLead_idem (l : List Char) : stripLead (stripLead l) = stripLead l :=
  List.dropWhile_idempotent pyIsSpace l

theorem stripTrail_idem (l : List Char) : stripTrail (stripTrail l) = stripTrail l :=
  List.rdropWhile_idempotent pyIsSpace l

theorem pyStrip_stripLead (l : List Char) : pyStrip (stripLead l) = pyStrip l := by
  unfold pyStrip
  rw [stripLead_idem]

theorem pyStrip_stripTrail (l : List Char) : pyStrip (stripTrail l) = pyStrip l := by
  unfold pyStrip
  rw [stripLead_stripTrail_comm, stripTrail_idem]

theorem pyStrip_idem (l : List Char) : pyStrip (pyStrip l) = pyStrip l := by
  unfold pyStrip
  rw [stripLead_stripTrail_comm, stripLead_idem, stripTrail_idem]

theorem keepLine_stripLead (m : List Char) : keepLine (stripLead m) = keepLine m := by
  unfold keepLine
  rw [pyStrip_stripLead]

theorem keepLine_stripTrail (m : List Char) : keepLine (stripTrail m) = keepLine m := by
  unfold keepLine
  rw [pyStrip_stripTrail]

/-! ## Newline-run structure and the collapse pass -/

/-- No two adjacent newlines. -/
def noNN (a b : Char) : Prop := ¬(a = '\n' ∧ b = '\n')

theorem collapseGo_chain' : ∀ {l : List Char}, List.Chain' noNN l →
    collapseGo 0 l = l ∧ (l.head? ≠ some '\n' → collapseGo 1 l = '\n' :: l)
  | [], _ => by
    constructor
    · simp [collapseGo]
    · intro
      simp [collapseGo]
  | c :: rest, h => by
    have htail : List.Chain' noNN rest := h.tail
    have ih := collapseGo_chain' htail
    by_cases hc : c = '\n'
    · subst hc
    -- the head is a newline: the chain forbids a second one right after
      have hhd : rest.head? ≠ some '\n' := by
        intro heq
        have hr := (List.chain'_cons'.mp h).1 '\n' heq
        exact hr ⟨rfl, rfl⟩
      constructor
      · have h1 : collapseGo 0 ('\n' :: rest) = collapseGo 1 rest := by
          simp [collapseGo]
        rw [h1, ih.2 hhd]
      · intro habs
        exact absurd rfl habs
    · constructor
      · have h1 : collapseGo 0 (c :: rest) = c :: collapseGo 0 rest := by
          simp [collapseGo, hc]
        rw [h1, ih.1]
      · intro
        have h1 : collapseGo 1 (c :: rest) = '\n' :: c :: collapseGo 0 rest := by
          simp [collapseGo, hc, List.replicate]
        rw [h1, ih.1]

theorem collapseNL_eq_self {l : List Char} (h : List.Chain' noNN l) :
    collapseNL l = l := (collapseGo_chain' h).1

theorem chain'_of_no_nl : ∀ {m : List Char}, '\n' ∉ m → List.Chain' noNN m
  | [], _ => List.chain'_nil
  | [_], _ => List.chain'_singleton _
  | a :: b :: t, h => by
    rw [List.chain'_cons]
    constructor
    · intro hab
      exact h (hab.2 ▸ List.mem_cons_of_mem _ (List.mem_cons_self b t))
    · exact chain'_of_no_nl (fun hm => h (List.mem_cons_of_mem _ hm))

theorem head?_joinNL_mem {m : List Char} {ms : List (List Char)} {y : Char}
    (hne : m ≠ []) (hy : y ∈ (joinNL (m :: ms)).head?) : y ∈ m := by
  rcases m with _ | ⟨c, cs⟩
  · exact absurd rfl hne
  · rcases ms with _ | ⟨m', ms'⟩
    · simp only [joinNL, List.head?_cons, Option.mem_def, Option.some.injEq] at hy
      exact hy ▸ List.mem_cons_self c cs
    · rw [joinNL_cons (by simp)] at hy
      simp only [List.cons_append, List.head?_cons, Option.mem_def,
        Option.some.injEq] at hy
      exact hy ▸ List.mem_cons_self c cs

theorem chain'_joinNL : ∀ {L : List (List Char)},
    (∀ m ∈ L, m ≠ [] ∧ '\n' ∉ m) → List.Chain' noNN (joinNL L)
  | [], _ => List.chain'_nil
  | [m], h => chain'_of_no_nl (h m (List.mem_singleton_self m)).2
  | m :: m' :: ms, h => by
    rw [joinNL_cons (by simp)]
    rw [List.chain'_append]
    refine ⟨chain'_of_no_nl (h m (List.mem_cons_self _ _)).2, ?_, ?_⟩
    · rw [List.chain'_cons']
      constructor
      · intro y hy
        have hm' := h m' (List.mem_cons_of_mem _ (List.mem_cons_self _ _))
        have : y ∈ m' := head?_joinNL_mem hm'.1 hy
        intro hab
        exact hm'.2 (hab.2 ▸ this)
      · exact chain'_joinNL (fun x hx => h x (List.mem_cons_of_mem _ hx))
    · intro x hx y hy
      have hxm : x ∈ m := by
        rcases List.mem_getLast?_eq_getLast hx with ⟨hne, hx2⟩
        exact hx2 ▸ List.getLast_mem hne
      simp only [List.head?_cons, Option.mem_def, Option.some.injEq] at hy
      intro hab
      exact (h m (List.mem_cons_self _ _)).2 (hab.1 ▸ hxm)

/-! ## Properties of the keep test -/

theorem keepLine_iff {m : List Char} : keepLine m = true ↔
    pyStrip m ≠ [] ∧ (pyStrip m).all isDecor = false := by
  unfold keepLine
  rw [Bool.and_eq_true, Bool.not_eq_true', Bool.not_eq_true']
  constructor
  · rintro ⟨h1, h2⟩
    refine ⟨?_, h2⟩
    intro he
    rw [he] at h1
    exact absurd h1 (by simp)
  · rintro ⟨h1, h2⟩
    refine ⟨?_, h2⟩
    rcases hps : pyStrip m with _ | ⟨c, cs⟩
    · exact absurd hps h1
    · rfl

theorem keepLine_ne_nil {m : List Char} (h : keepLine m = true) : m ≠ [] := by
  intro he
  subst he
  exact absurd rfl (keepLine_iff.mp h).1

theorem stripLead_ne_nil_of_keep {m : List Char} (h : keepLine m = true) :
    stripLead m ≠ [] := by
  intro he
  have : pyStrip m = [] := by
    unfold pyStrip
    rw [he]
    rfl
  exact absurd this (keepLine_iff.mp h).1

theorem stripTrail_ne_nil_of_keep {m : List Char} (h : keepLine m = true) :
    stripTrail m ≠ [] := by
  intro he
  have hall : ∀ c ∈ m, pyIsSpace c = true := stripTrail_eq_nil_iff.mp he
  have h2 : stripLead m = [] := stripLead_eq_nil_iff.mpr hall
  exact stripLead_ne_nil_of_keep h h2

theorem mem_stripLead_of_not_space : ∀ {l : List Char} {c : Char},
    c ∈ l → pyIsSpace c = false → c ∈ stripLead l
  | [], c, hc, _ => absurd hc (List.not_mem_nil c)
  | a :: rest, c, hc, hns => by
    by_cases ha : pyIsSpace a
    · have h1 : stripLead (a :: rest) = stripLead rest := by
        simp [stripLead, List.dropWhile_cons, ha]
      rcases List.mem_cons.mp hc with h2 | h2
      · subst h2
        rw [ha] at hns
        exact absurd hns (by simp)
      · rw [h1]
        exact mem_stripLead_of_not_space h2 hns
    · have h1 : stripLead (a :: rest) = a :: rest := by
        simp [stripLead, List.dropWhile_cons, ha]
      rw [h1]
      exact hc

theorem mem_stripTrail_of_not_space {l : List Char} {c : Char}
    (hc : c ∈ l) (hns : pyIsSpace c = false) : c ∈ stripTrail l := by
  unfold stripTrail List.rdropWhile
  rw [List.mem_reverse]
  exact mem_stripLead_of_not_space (List.mem_reverse.mpr hc) hns

theorem mem_pyStrip_of_not_space {l : List Char} {c : Char}
    (hc : c ∈ l) (hns : pyIsSpace c = false) : c ∈ pyStrip l :=
  mem_stripTrail_of_not_space (mem_stripLead_of_not_space hc hns) hns

theorem keepLine_of_mem_dot {m : List Char} (h : '.' ∈ m) : keepLine m = true := by
  rw [keepLine_iff]
  have hdot : ('.' : Char) ∈ pyStrip m := mem_pyStrip_of_not_space h (by decide)
  constructor
  · exact List.ne_nil_of_mem hdot
  · rw [Bool.eq_false_iff]
    intro hall
    have := List.all_eq_true.mp hall '.' hdot
    exact absurd this (by decide)

/-! ## Leading and trailing strips act on the first and last line only -/

theorem stripLead_joinNL {m : List Char} {X : List (List Char)}
    (h : stripLead m ≠ []) : stripLead (joinNL (m :: X)) = joinNL (stripLead m :: X) := by
  rcases X with _ | ⟨m', ms⟩
  · rfl
  · show stripLead (m ++ '\n' :: joinNL (m' :: ms)) =
      stripLead m ++ '\n' :: joinNL (m' :: ms)
    unfold stripLead at h ⊢
    rw [List.dropWhile_append, if_neg (by simpa [List.isEmpty_iff] using h)]

theorem stripTrail_joinNL : ∀ {X : List (List Char)} {q : List Char},
    stripTrail q ≠ [] → stripTrail (joinNL (X ++ [q])) = joinNL (X ++ [stripTrail q])
  | [], q, h => by simp [joinNL]
  | a :: X', q, h => by
    have hW : stripTrail (joinNL (X' ++ [q])) = joinNL (X' ++ [stripTrail q]) :=
      stripTrail_joinNL h
    have hWne : stripTrail (joinNL (X' ++ [q])) ≠ [] := by
      rw [hW]
      exact joinNL_append_singleton_ne_nil h
    rw [List.cons_append, joinNL_cons (by simp)]
    rw [stripTrail_append (v := '\n' :: joinNL (X' ++ [q]))
      (by rw [stripTrail_cons_of_ne_nil hWne]; simp)]
    rw [stripTrail_cons_of_ne_nil hWne, hW]
    rw [List.cons_append, joinNL_cons (by simp)]

/-- `pyStrip` of a join of kept newline-free lines is again a join of
kept newline-free lines. -/
theorem pyStrip_joinNL_struct {L : List (List Char)} (hne : L ≠ [])
    (h : ∀ m ∈ L, '\n' ∉ m ∧ keepLine m = true) :
    ∃ L', pyStrip (joinNL L) = joinNL L' ∧ L' ≠ [] ∧
      ∀ m ∈ L', '\n' ∉ m ∧ keepLine m = true := by
  have hps : pyStrip (joinNL L) = stripLead (stripTrail (joinNL L)) := by
    unfold pyStrip
    rw [stripLead_stripTrail_comm]
  obtain ⟨X, q, hXq⟩ : ∃ X q, L = X ++ [q] := by
    refine ⟨L.dropLast, L.getLast hne, ?_⟩
    rw [List.dropLast_append_getLast hne]
  have hq : '\n' ∉ q ∧ keepLine q = true := h q (by rw [hXq]; simp)
  have hqT : stripTrail q ≠ [] := stripTrail_ne_nil_of_keep hq.2
  rw [hps, hXq, stripTrail_joinNL hqT]
  rcases X with _ | ⟨a, X''⟩
  · refine ⟨[stripLead (stripTrail q)], ?_, by simp, ?_⟩
    · simp [joinNL]
    · intro m hm
      rw [List.mem_singleton] at hm
      subst hm
      constructor
      · intro hmem
        exact hq.1 (mem_stripTrail (mem_stripLead hmem))
      · rw [keepLine_stripLead, keepLine_stripTrail]
        exact hq.2
  · have ha : '\n' ∉ a ∧ keepLine a = true := h a (by rw [hXq]; simp)
    have haL : stripLead a ≠ [] := stripLead_ne_nil_of_keep ha.2
    rw [List.cons_append, stripLead_joinNL haL]
    refine ⟨stripLead a :: (X'' ++ [stripTrail q]), rfl, by simp, ?_⟩
    intro m hm
    rcases List.mem_cons.mp hm with h1 | h1
    · subst h1
      exact ⟨fun hmem => ha.1 (mem_stripLead hmem),
        by rw [keepLine_stripLead]; exact ha.2⟩
    · rcases List.mem_append.mp h1 with h2 | h2
      · have hmL : m ∈ L := by
          rw [hXq]
          exact List.mem_cons_of_mem a (List.mem_append_left [q] h2)
        exact h m hmL
      · rw [List.mem_singleton] at h2
        subst h2
        exact ⟨fun hmem => hq.1 (mem_stripTrail hmem),
          by rw [keepLine_stripTrail]; exact hq.2⟩

/-! ## Structure of a truncated join -/

theorem take_dots_struct : ∀ {L : List (List Char)}, L ≠ [] →
    (∀ m ∈ L, '\n' ∉ m) → ∀ n : Nat, ∃ P q,
      (joinNL L).take n ++ dots = joinNL (P ++ [q ++ dots]) ∧
      (∀ m ∈ P, m ∈ L) ∧ '\n' ∉ q
  | [], hne, _, _ => absurd rfl hne
  | [m], _, h, n => by
    refine ⟨[], m.take n, ?_, by simp, ?_⟩
    · simp [joinNL]
    · intro hmem
      exact h m (List.mem_singleton_self m) (List.take_subset n m hmem)
  | m :: m' :: ms, _, h, n => by
    rw [joinNL_cons (by simp), List.take_append_eq_append_take]
    by_cases hn : n ≤ m.length
    · have h0 : n - m.length = 0 := Nat.sub_eq_zero_of_le hn
      rw [h0, List.take_zero, List.append_nil]
      refine ⟨[], m.take n, by simp [joinNL], by simp, ?_⟩
      intro hmem
      exact h m (List.mem_cons_self _ _) (List.take_subset n m hmem)
    · have hlt : m.length < n := Nat.lt_of_not_le hn
      rw [List.take_of_length_le (Nat.le_of_lt hlt)]
      obtain ⟨k, hk⟩ : ∃ k, n - m.length = k + 1 :=
        Nat.exists_eq_succ_of_ne_zero (Nat.sub_ne_zero_of_lt hlt)
      rw [hk, List.take_succ_cons]
      obtain ⟨P', q', heq, hP', hq'⟩ :=
        take_dots_struct (L := m' :: ms) (by simp)
          (fun x hx => h x (List.mem_cons_of_mem _ hx)) k
      refine ⟨m :: P', q', ?_, ?_, hq'⟩
      · rw [List.append_assoc, List.cons_append, heq]
        exact (joinNL_cons (by simp)).symm
      · intro x hx
        rcases List.mem_cons.mp hx with h1 | h1
        · exact h1 ▸ List.mem_cons_self _ _
        · exact List.mem_cons_of_mem _ (hP' x h1)

/-! ## Structure of the sanitizer output -/

theorem clean_output_pyStrip (l : List Char) :
    pyStrip (clean_output l) = clean_output l := by
  unfold clean_output
  split
  · rfl
  · exact pyStrip_idem _

/-- Every nonempty sanitizer output is a newline-join of nonempty,
newline-free lines each of which passes the keep test. -/
theorem clean_output_struct (l : List Char) :
    clean_output l = [] ∨ ∃ L', clean_output l = joinNL L' ∧ L' ≠ [] ∧
      ∀ m ∈ L', '\n' ∉ m ∧ keepLine m = true := by
  unfold clean_output
  split
  · exact Or.inl rfl
  · set w := collapseNL (ctrlSub (subH (sub2J (cursorSub (ansiSub l))))) with hw
    set M := (splitNL w).filter keepLine with hM
    have hMprops : ∀ m ∈ M, '\n' ∉ m ∧ keepLine m = true := by
      intro m hm
      exact ⟨splitNL_no_nl (List.mem_of_mem_filter hm), List.of_mem_filter hm⟩
    have hdl : dropDecorLines w = joinNL M := rfl
    rcases hMnil : M with _ | ⟨m0, ms0⟩
    · left
      rw [hdl, hMnil]
      rfl
    · have hMne : M ≠ [] := by rw [hMnil]; simp
      rw [hdl]
      unfold truncatePy
      split
      · rename_i hlen
        obtain ⟨P, q, heq, hP, hq⟩ := take_dots_struct hMne
          (fun m hm => (hMprops m hm).1) 3997
        rw [heq]
        have hgood : ∀ m ∈ P ++ [q ++ dots], '\n' ∉ m ∧ keepLine m = true := by
          intro m hm
          rcases List.mem_append.mp hm with h1 | h1
          · exact hMprops m (hP m h1)
          · rw [List.mem_singleton] at h1
            subst h1
            constructor
            · intro hmem
              rcases List.mem_append.mp hmem with h2 | h2
              · exact hq h2
              · revert h2
                decide
            · exact keepLine_of_mem_dot (List.mem_append_right q (by decide))
        obtain ⟨L', hL', hL'ne, hL'p⟩ :=
          pyStrip_joinNL_struct (by simp) hgood
        exact Or.inr ⟨L', hL', hL'ne, hL'p⟩
      · obtain ⟨L', hL', hL'ne, hL'p⟩ := pyStrip_joinNL_struct hMne hMprops
        exact Or.inr ⟨L', hL', hL'ne, hL'p⟩

/-- Every line of a nonempty sanitizer output passes the keep test. -/
theorem clean_output_linesOK (l : List Char) :
    clean_output l = [] ∨ ∀ m ∈ splitNL (clean_output l), keepLine m = true := by
  rcases clean_output_struct l with h | ⟨L', hy, hne, hp⟩
  · exact Or.inl h
  · right
    intro m hm
    rw [hy, splitNL_joinNL (fun x hx => (hp x hx).1) hne] at hm
    exact (hp m hm).2

/-- The sanitizer is the identity on any value that has the structure
of a sanitizer output. -/
theorem clean_output_of_struct {L' : List (List Char)} {y : List Char}
    (hy : y = joinNL L') (hne : L' ≠ [])
    (hp : ∀ m ∈ L', '\n' ∉ m ∧ keepLine m = true)
    (hctrl : ∀ c ∈ y, isRemovableCtrl c = false)
    (hlen : y.length ≤ 4000) (hps : pyStrip y = y) :
    clean_output y = y := by
  have hyne : y ≠ [] := by
    rw [hy]
    exact joinNL_ne_nil_of_keep hne (fun m hm => keepLine_ne_nil (hp m hm).2)
  have hnoesc : ∀ c ∈ y, c ≠ '\x1b' := by
    intro c hc he
    have h1 := hctrl c hc
    rw [he] at h1
    exact absurd h1 (by decide)
  unfold clean_output
  rw [if_neg (by simpa [List.isEmpty_iff] using hyne)]
  rw [ansiSub_eq_self hnoesc, cursorSub_eq_self hnoesc, sub2J_eq_self hnoesc,
    subH_eq_self hnoesc, ctrlSub_eq_self hctrl]
  rw [collapseNL_eq_self (by
    rw [hy]
    exact chain'_joinNL (fun m hm =>
      ⟨keepLine_ne_nil (hp m hm).2, (hp m hm).1⟩))]
  have hsplit : splitNL y = L' := by
    rw [hy]
    exact splitNL_joinNL (fun x hx => (hp x hx).1) hne
  have hdd : dropDecorLines y = y := by
    unfold dropDecorLines
    rw [hsplit, List.filter_eq_self.mpr (fun m hm => (hp m hm).2), ← hy]
  rw [hdd]
  have htr : truncatePy y = y := by
    unfold truncatePy
    rw [if_neg (by omega)]
  rw [htr, hps]

/-! ## Claim theorems -/

/-- C2: the output sanitizer is idempotent: for every input `x`,
`clean_output (clean_output x) = clean_output x`. -/
theorem clean_output_idem (l : List Char) :
    clean_output (clean_output l) = clean_output l := by
  rcases clean_output_struct l with h | ⟨L', hy, hne, hp⟩
  · rw [h]
    rfl
  · exact clean_output_of_struct hy hne hp
      (fun c hc => clean_output_no_ctrl hc)
      (clean_output_length l) (clean_output_pyStrip l)

/-- C3 counterexample: the input `"a\n\nb"` contains a line that is
empty after trimming when the keep test runs (third conjunct), yet the
sanitized output is `"a\nb"`: the blank line is dropped, not kept as
blank-line structure. -/
theorem blank_line_dropped_cex :
    clean_output ('a' :: '\n' :: '\n' :: 'b' :: []) = 'a' :: '\n' :: 'b' :: [] ∧
    [] ∉ splitNL (clean_output ('a' :: '\n' :: '\n' :: 'b' :: [])) ∧
    [] ∈ splitNL (collapseNL (ctrlSub (subH (sub2J (cursorSub
      (ansiSub ('a' :: '\n' :: '\n' :: 'b' :: []))))))) := by decide

/-- C3 amended: lines whose trimmed content is empty are dropped along
with the decorative-only ones; every line of a nonempty sanitized
output has nonempty trimmed content that is not entirely decorative. -/
theorem clean_output_no_blank_lines (l m : List Char)
    (hne : clean_output l ≠ []) (hm : m ∈ splitNL (clean_output l)) :
    pyStrip m ≠ [] ∧ (pyStrip m).all isDecor = false := by
  rcases clean_output_linesOK l with h | h
  · exact absurd h hne
  · exact keepLine_iff.mp (h m hm)

/-- Witness for the amended C3 theorem at the input `"a\n\nb"`. -/
theorem clean_output_no_blank_lines_witness :
    pyStrip ['a'] ≠ [] ∧ (pyStrip ['a']).all isDecor = false :=
  clean_output_no_blank_lines ('a' :: '\n' :: '\n' :: 'b' :: []) ['a']
    (by decide) (by decide)

/-- C4 counterexample: carriage return `\x0d` and DEL `\x7f` are NOT
removed by the sanitizer — both survive into the output. -/
theorem cr_del_kept_cex :
    clean_output ('a' :: '\x0d' :: 'b' :: []) = 'a' :: '\x0d' :: 'b' :: [] ∧
    clean_output ('a' :: '\x7f' :: 'b' :: []) = 'a' :: '\x7f' :: 'b' :: [] := by
  decide

/-- C4 amended: the sanitizer removes exactly the control characters
of the class `[\x00-\x09\x0b\x0c\x0e-\x1f]`; consequently a character
of the output below `0x20` can only be the newline `0x0A` or the
carriage return `0x0D` (and DEL `0x7f` is not removed at all). -/
theorem clean_output_ctrl_removed (l : List Char) (c : Char)
    (hc : c ∈ clean_output l) :
    isRemovableCtrl c = false ∧
      (c.toNat < 0x20 → c.toNat = 0x0A ∨ c.toNat = 0x0D) := by
  have h1 := clean_output_no_ctrl hc
  refine ⟨h1, ?_⟩
  intro hlt
  simp only [isRemovableCtrl, Bool.or_eq_false_iff, Bool.and_eq_false_iff,
    decide_eq_false_iff_not, not_le, Nat.not_lt] at h1
  omega

/-- Witness for the amended C4 theorem. -/
theorem clean_output_ctrl_removed_witness :
    isRemovableCtrl 'a' = false ∧
      ('a'.toNat < 0x20 → 'a'.toNat = 0x0A ∨ 'a'.toNat = 0x0D) :=
  clean_output_ctrl_removed ['a'] 'a' (by decide)

/-- C5: the sanitizer's result never exceeds 4000 characters, it is
trimmed of leading and trailing whitespace, and whenever the cleaned
text exceeds the limit the truncation stage keeps 3997 characters and
appends the `"..."` marker. -/
theorem clean_output_bounded (l : List Char) :
    (clean_output l).length ≤ 4000 ∧
    pyStrip (clean_output l) = clean_output l ∧
    (∀ z : List Char, 4000 < z.length → truncatePy z = z.take 3997 ++ dots) := by
  refine ⟨clean_output_length l, clean_output_pyStrip l, ?_⟩
  intro z hz
  unfold truncatePy
  rw [if_pos hz]

/-- Witness for C5, truncation clause exercised at a 4001-character
input. -/
theorem clean_output_bounded_witness :
    (clean_output ['a']).length ≤ 4000 ∧
    truncatePy (List.replicate 4001 'a') =
      (List.replicate 4001 'a').take 3997 ++ dots :=
  ⟨(clean_output_bounded ['a']).1,
   (clean_output_bounded ['a']).2.2 (List.replicate 4001 'a')
     (by rw [List.length_replicate]; omega)⟩

/-- C6 (code bug): no code path increments `messages_sent`.  The state
update performed after a successful `send_to_cline` invocation (storing
a reported task id, src lines 743-747) leaves the counter unchanged; on
a fresh session it stays `0` instead of becoming `1`. -/
theorem messages_sent_not_incremented :
    (∀ (s : Session) (r : Option String),
      (handle_message_update s r).messages_sent = s.messages_sent) ∧
    (handle_message_update (init_session "/w" "m") (some "42")).messages_sent
      = 0 := by
  constructor
  · intro s r
    rcases r with _ | t
    · rfl
    · show (if t = "" then s
        else { s with task_id := some t }).messages_sent = s.messages_sent
      split <;> rfl
  · rfl

/-- C7 counterexample: `/resume abc` stores the verbatim user argument
`"abc"` as the task id, although no agent output can ever parse to it
(it is not a digit string, and the marker scanner rejects it). -/
theorem resume_sets_unparsed_task_id :
    (resume_command (init_session "/w" "m") "abc").task_id = some "abc" ∧
    "abc".data.all Char.isDigit = false ∧
    extractTaskId "abc".data = none := ⟨rfl, by decide, by decide⟩

theorem matchMarker_digits {l d : List Char} (h : matchMarker l = some d) :
    d ≠ [] ∧ d.all Char.isDigit = true := by
  unfold matchMarker at h
  split at h
  · split at h
    · exact absurd h (by simp)
    · rename_i hne
      injection h with h2
      subst h2
      refine ⟨by simpa [List.isEmpty_iff] using hne, ?_⟩
      rw [List.all_eq_true]
      intro x hx
      simpa using List.mem_takeWhile_imp hx
  · exact absurd h (by simp)

/-- C7 amended: `task_id` has exactly two sources: the first
`Task started: <digits>` marker parsed from agent output (always a
nonempty digit string, first match wins) or the verbatim argument of
the resume command; `restart` clears it. -/
theorem task_id_sources :
    (∀ out d : List Char, extractTaskId out = some d →
      d ≠ [] ∧ d.all Char.isDigit = true) ∧
    (∀ (s : Session) (a : String), (resume_command s a).task_id = some a) ∧
    (∀ s : Session, (restart s).1.task_id = none) ∧
    extractTaskId "Task started: 1 and Task started: 2".data = some ['1'] := by
  refine ⟨?_, fun s a => rfl, fun s => rfl, by decide⟩
  intro out
  induction out with
  | nil =>
    intro d h
    simp [extractTaskId] at h
  | cons c rest ih =>
    intro d h
    rcases hm : matchMarker (c :: rest) with _ | d'
    · rw [extractTaskId, hm] at h
      exact ih d h
    · rw [extractTaskId, hm] at h
      have h3 : some d' = some d := h
      injection h3 with h4
      exact h4 ▸ matchMarker_digits hm

/-- Witness for the amended C7 theorem. -/
theorem task_id_sources_witness :
    (['4', '2'] : List Char) ≠ [] ∧
      (['4', '2'] : List Char).all Char.isDigit = true :=
  task_id_sources.1 "Task started: 42".data ['4', '2'] (by decide)

/-- C8: `cd_command` resolves a relative argument against the session
working directory (through `cdTarget`); a non-directory target leaves
the session unchanged and reports the not-found error, while an
existing directory rebinds `working_dir` and resets the session like
`restart`. -/
theorem cd_command_spec (cwd : String) (isDir : String → Bool) (s : Session)
    (args : List String) (hargs : args ≠ []) :
    (isDir (cdTarget cwd s args) = false →
      cd_command cwd isDir s args = (s, CdReply.notFound (cdTarget cwd s args))) ∧
    (isDir (cdTarget cwd s args) = true →
      (cd_command cwd isDir s args).1.working_dir = cdTarget cwd s args ∧
      (cd_command cwd isDir s args).1.task_id = none ∧
      (cd_command cwd isDir s args).1.messages_sent = 0 ∧
      (cd_command cwd isDir s args).1.total_tokens = 0 ∧
      (cd_command cwd isDir s args).1.model = s.model ∧
      (cd_command cwd isDir s args).1.process = s.process ∧
      (cd_command cwd isDir s args).2 =
        CdReply.changed (cdTarget cwd s args)
          "Cline session reset. Next message will start fresh.") := by
  rcases args with _ | ⟨a, rest⟩
  · exact absurd rfl hargs
  · constructor
    · intro hdir
      simp [cd_command, hdir]
    · intro hdir
      simp [cd_command, restart, hdir]

/-- Witness for C8: both branches at concrete inputs; the relative
argument `"x"` resolves against `"/home"` to `"/home/x"`. -/
theorem cd_command_spec_witness :
    (cd_command "/" (fun d => d = "/home/x")
      (init_session "/home" "m") ["x"]).1.working_dir = "/home/x" ∧
    cd_command "/" (fun d => d = "/home/x") (init_session "/home" "m") ["nope"] =
      (init_session "/home" "m", CdReply.notFound "/home/nope") := by
  constructor
  · have h := ((cd_command_spec "/" (fun d => d = "/home/x")
      (init_session "/home" "m") ["x"] (by decide)).2 (by decide)).1
    rw [h]
    decide
  · have h := (cd_command_spec "/" (fun d => d = "/home/x")
      (init_session "/home" "m") ["nope"] (by decide)).1 (by decide)
    rw [h]
    decide

/-- C9 counterexample: `restart` does not terminate a retained
process: on a session holding a live process handle the handle is
still held after the reset. -/
theorem restart_keeps_process :
    (restart session_with_process).1.process = some 7 ∧
    session_with_process.process ≠ none := by decide

/-- C9 amended: after `restart`, `task_id` is `None`, both counters
are `0`, the confirmation string is returned, and a second reset gives
the same state and confirmation; the process handle (and the working
directory and model) are left untouched — the process is NOT
terminated. -/
theorem restart_spec (s : Session) :
    (restart s).1.task_id = none ∧ (restart s).1.messages_sent = 0 ∧
    (restart s).1.total_tokens = 0 ∧ (restart s).1.process = s.process ∧
    (restart s).1.working_dir = s.working_dir ∧
    (restart s).1.model = s.model ∧
    (restart s).2 = "Cline session reset. Next message will start fresh." ∧
    restart (restart s).1 = restart s :=
  ⟨rfl, rfl, rfl, rfl, rfl, rfl, rfl, rfl⟩

/-- C10: the argument list of a `send_to_cline` invocation: with a
task id set, `--taskId <id>` is passed and the model selection is
omitted; otherwise `--model <model>` is passed; in both cases the
message (with optional context prefix) is the single final argument
and the list has a fixed arity, so the message is never split. -/
theorem send_to_cline_cmd_spec (path : String) (yolo : Bool) (tmo : Nat)
    (s : Session) (pre msg : String) :
    (∀ t, s.task_id = some t →
      send_to_cline_cmd path yolo tmo s pre msg =
        [path] ++ (if yolo then ["--yolo"] else []) ++
          ["--taskId", t, "--timeout", toString tmo, "--cwd", s.working_dir,
           send_message_arg pre msg]) ∧
    (s.task_id = none →
      send_to_cline_cmd path yolo tmo s pre msg =
        [path] ++ (if yolo then ["--yolo"] else []) ++
          ["--model", s.model, "--timeout", toString tmo, "--cwd",
           s.working_dir, send_message_arg pre msg]) ∧
    (send_to_cline_cmd path yolo tmo s pre msg).length =
      (if yolo then 9 else 8) := by
  refine ⟨?_, ?_, ?_⟩
  · intro t ht
    simp [send_to_cline_cmd, ht]
  · intro ht
    simp [send_to_cline_cmd, ht]
  · rcases ht : s.task_id with _ | t <;> by_cases hy : yolo <;>
      simp [send_to_cline_cmd, ht, hy]

/-- Witness for C10 in the resume case. -/
theorem send_to_cline_cmd_spec_witness :
    send_to_cline_cmd "cline" true 120
      ({ init_session "/w" "m" with task_id := some "7" }) "" "hello world" =
      ["cline", "--yolo", "--taskId", "7", "--timeout", toString 120, "--cwd",
       "/w", "hello world"] := by
  have h := (send_to_cline_cmd_spec "cline" true 120
    ({ init_session "/w" "m" with task_id := some "7" }) "" "hello world").1
    "7" rfl
  rw [h]
  simp [send_message_arg, init_session]
